import Mathlib

/-!
Verification of the rust-mdo library: monadic do-notation desugaring
(`mdo!` in src/lib.rs) and the three monadic operation families
(`option`, `result`, `iter`).

Iterators are modelled as finite lists (`List`); every iterator in the
repository's tests and examples is finite and is observed through
`collect`, which yields exactly the list of produced elements in order.
Rust `range(a, b)` (half-open integer range) is modelled by `range` below.
-/

namespace Mdo

/-- Rust `range(a, b)`: the integers `a, a+1, ..., b-1` in order; empty
when `b <= a`. -/
def range (a b : Int) : List Int :=
  (List.range (b - a).toNat).map (fun i => a + (i : Int))

namespace option

/-- `option::bind` from src/lib.rs lines 95-100: match on `m`, apply `f`
in the `Some` branch, return `None` in the `None` branch. -/
def bind {T U : Type} (m : Option T) (f : T → Option U) : Option U :=
  match m with
  | some a => f a
  | none => none

/-- `option::ret` from src/lib.rs lines 103-105: `Some(x)`. -/
def ret {T : Type} (x : T) : Option T :=
  some x

/-- `option::mzero` from src/lib.rs lines 108-110: `None`. -/
def mzero {T : Type} : Option T :=
  none

/-- `option::bind` instrumented to record the arguments at which `f` is
applied: the `Some` branch of the source applies `f` exactly once (to the
unwrapped value `a`), the `None` branch never applies it. -/
def bindTraced {T U : Type} (m : Option T) (f : T → Option U) :
    Option U × List T :=
  match m with
  | some a => (f a, [a])
  | none => (none, [])

end option

/-- Rust `Result<T, E>` (std enum): success `Ok` or error `Err`. -/
inductive Result (T E : Type) : Type where
  | Ok : T → Result T E
  | Err : E → Result T E
deriving DecidableEq

namespace result

/-- `result::bind` from src/lib.rs lines 117-122: match on `m`, apply `f`
in the `Ok` branch, rebuild `Err(err)` in the `Err` branch. -/
def bind {T E U : Type} (m : Result T E) (f : T → Result U E) :
    Result U E :=
  match m with
  | .Ok a => f a
  | .Err err => .Err err

/-- `result::ret` from src/lib.rs lines 125-127: `Ok(x)`. -/
def ret {T E : Type} (x : T) : Result T E :=
  .Ok x

/-- `result::bind` instrumented to record the arguments at which `f` is
applied: the `Ok` branch of the source applies `f` exactly once (to the
unwrapped value `a`), the `Err` branch never applies it. -/
def bindTraced {T E U : Type} (m : Result T E) (f : T → Result U E) :
    Result U E × List T :=
  match m with
  | .Ok a => (f a, [a])
  | .Err err => (.Err err, [])

end result

namespace iter

/-- Rust `Option<T>::into_iter()`: the sequence of elements of an
optional value — one element for `Some`, none for `None`. -/
def optionIntoIter {T : Type} (m : Option T) : List T :=
  match m with
  | some x => [x]
  | none => []

/-- `iter::bind` from src/lib.rs lines 137-142: `m.flat_map(f)`, i.e.
apply `f` to every element of `m` in order and concatenate the resulting
sub-sequences in order. -/
def bind {A B : Type} (m : List A) (f : A → List B) : List B :=
  (m.map f).flatten

/-- `iter::ret` from src/lib.rs lines 145-147: `Some(x).into_iter()`. -/
def ret {T : Type} (x : T) : List T :=
  optionIntoIter (some x)

/-- `iter::mzero` from src/lib.rs lines 150-152: `None.into_iter()`. -/
def mzero {T : Type} : List T :=
  optionIntoIter none

end iter

/-- A clause sequence of the `mdo!` notation (src/lib.rs lines 47-89):
zero or more bind / let / ignore / when clauses followed by a terminal
`ret` clause. Continuations of binding clauses are higher-order so that
later clauses may mention the bound value, exactly as the macro's emitted
closures do. -/
inductive Clauses (M : Type → Type) : Type → Type 1 where
  | retC {α : Type} (e : M α) : Clauses M α
  | bindC {α β : Type} (e : M β) (rest : β → Clauses M α) : Clauses M α
  | letC {α β : Type} (e : β) (rest : β → Clauses M α) : Clauses M α
  | ignC {α β : Type} (e : M β) (rest : Clauses M α) : Clauses M α
  | whenC {α : Type} (b : Bool) (rest : Clauses M α) : Clauses M α

/-- The triple of monadic functions the `mdo!` expansion calls; in Rust
they are resolved by lexical scope at the expansion site. -/
structure MonadOps (M : Type → Type) : Type 1 where
  bind : {A B : Type} → M A → (A → M B) → M B
  ret : {A : Type} → A → M A
  mzero : {A : Type} → M A

/-- The `mdo!` macro's recursive expansion, one case per arm of
src/lib.rs lines 47-89: `let` emits a lexical binding around the expanded
remainder; `p <- e` emits `bind(e, move |p| ...)`; `ign e` emits
`bind(e, move |_| ...)`; `when e` emits
`bind(if e { ret(()) } else { mzero() }, move |_| ...)`; terminal `ret f`
emits `f` verbatim. -/
def mdoDesugar {M : Type → Type} (ops : MonadOps M) {α : Type} :
    Clauses M α → M α
  | .retC e => e
  | .bindC e rest => ops.bind e (fun p => mdoDesugar ops (rest p))
  | .letC e rest =>
      let p := e
      mdoDesugar ops (rest p)
  | .ignC e rest => ops.bind e (fun _ => mdoDesugar ops rest)
  | .whenC b rest =>
      ops.bind (if b then ops.ret () else ops.mzero)
        (fun _ => mdoDesugar ops rest)

/-- Modelled from the spec (section 4.1 rewrite table): `Let(p, e); rest`
becomes a plain lexical binding around the desugared remainder;
`Bind(p, e); rest` becomes `bind(e, fn(p) -> rest)`; `Ignore(e); rest` is
`Bind(_, e); rest` with a discarded pattern; `When(b); rest` becomes
`bind(if b \x7b return(unit) \x7d else \x7b zero() \x7d, fn(_) -> rest)`;
terminal `Return(e)` is `e` verbatim. -/
def specDesugar {M : Type → Type} (ops : MonadOps M) {α : Type} :
    Clauses M α → M α
  | .retC e => e
  | .bindC e rest => ops.bind e (fun p => specDesugar ops (rest p))
  | .letC e rest =>
      let p := e
      specDesugar ops (rest p)
  | .ignC e rest => ops.bind e (fun _x => specDesugar ops rest)
  | .whenC b rest =>
      ops.bind (if b then ops.ret () else ops.mzero)
        (fun _x => specDesugar ops rest)

/-- The iterator instance of the operations, as imported by the tests
(`use super::iter::\x7bbind, ret, mzero\x7d`). -/
def iterOps : MonadOps List where
  bind := iter.bind
  ret := iter.ret
  mzero := iter.mzero

/-- The nested `iter::bind` expression of tests::iter_bind, src/lib.rs
lines 214-220: z over 1..11, y over 1..z+1, x over 1..y+1, guard
x*x + y*y == z*z, result (x, y, z). -/
def pythTest : List (Int × Int × Int) :=
  iter.bind (range 1 11) (fun z =>
    iter.bind (range 1 (z + 1)) (fun y =>
      iter.bind (range 1 (y + 1)) (fun x =>
        iter.bind
          (if x * x + y * y == z * z then iter.ret () else iter.mzero)
          (fun _ => iter.ret (x, y, z)))))

/-- The nested `bind` expression of examples/iter_mdo.rs lines 21-26:
z over 1..11, x over 1..z, y over x..z, guard x*x + y*y == z*z, result
(x, y, z). -/
def pythExample : List (Int × Int × Int) :=
  iter.bind (range 1 11) (fun z =>
    iter.bind (range 1 z) (fun x =>
      iter.bind (range x z) (fun y =>
        iter.bind
          (if x * x + y * y == z * z then iter.ret () else iter.mzero)
          (fun _ => iter.ret (x, y, z)))))

/-- The clause sequence of tests::when_trick, src/lib.rs lines 274-278:
`when <- range(0, 5); when when != 3; ret ret(when)` — the bound variable
shadows the `when` keyword, and the guard's test reads that just-bound
value. -/
def whenTrickClauses : Clauses List Int :=
  .bindC (range 0 5) (fun w =>
    .whenC (w != 3) (.retC (iter.ret w)))

/-- C1: for every clause sequence (bind, let, ignore and when clauses
followed by a terminal ret clause) and every set of monadic operations in
scope, the `mdo!` expansion equals the manually-nested form built from
the rewrite rules of spec section 4.1. -/
theorem claim_C1 (M : Type → Type) (ops : MonadOps M) (α : Type)
    (c : Clauses M α) : mdoDesugar ops c = specDesugar ops c := by
  induction c with
  | retC e => rfl
  | bindC e rest ih =>
      simp only [mdoDesugar, specDesugar]
      exact congrArg (ops.bind e) (funext fun p => ih p)
  | letC e rest ih =>
      simpa only [mdoDesugar, specDesugar] using ih e
  | ignC e rest ih =>
      simp only [mdoDesugar, specDesugar]
      exact congrArg (ops.bind e) (funext fun _ => ih)
  | whenC b rest ih =>
      simp only [mdoDesugar, specDesugar]
      exact congrArg _ (funext fun _ => ih)

/-- C2: `iter::bind` has flat-map semantics — the empty sequence maps to
the empty sequence, and element by element the sub-sequence `f a` of the
head is emitted in full before the rest, preserving order; on the literal
case, `bind(0..3, |x| x..3)` collects to `[0, 1, 2, 1, 2, 2]`. -/
theorem claim_C2 :
    (∀ (A B : Type) (f : A → List B), iter.bind [] f = []) ∧
    (∀ (A B : Type) (a : A) (m : List A) (f : A → List B),
      iter.bind (a :: m) f = f a ++ iter.bind m f) ∧
    iter.bind (range 0 3) (fun x => range x 3) = [0, 1, 2, 1, 2, 2] :=
  ⟨fun _ _ _ => rfl, fun _ _ _ _ _ => rfl, by decide⟩

/-- C3: `option::bind` returns `f v` on `Some v` and `None` on `None`;
instrumented, `f` is applied at most once, and never in the `None`
case. -/
theorem claim_C3 :
    (∀ (T U : Type) (v : T) (f : T → Option U),
      option.bind (some v) f = f v) ∧
    (∀ (T U : Type) (f : T → Option U),
      option.bind (none : Option T) f = none) ∧
    (∀ (T U : Type) (m : Option T) (f : T → Option U),
      (option.bindTraced m f).1 = option.bind m f) ∧
    (∀ (T U : Type) (m : Option T) (f : T → Option U),
      (option.bindTraced m f).2.length ≤ 1) ∧
    (∀ (T U : Type) (f : T → Option U),
      (option.bindTraced (none : Option T) f).2 = []) := by
  refine ⟨fun _ _ _ _ => rfl, fun _ _ _ => rfl, fun T U m f => ?_,
    fun T U m f => ?_, fun _ _ _ => rfl⟩ <;>
    cases m <;> simp [option.bind, option.bindTraced]

/-- C4: `result::bind` returns `f v` on `Ok v`, and on `Err e` returns
that very error unchanged for an arbitrary payload type, with `f` never
applied (instrumented trace is empty). -/
theorem claim_C4 :
    (∀ (T E U : Type) (v : T) (f : T → Result U E),
      result.bind (.Ok v) f = f v) ∧
    (∀ (T E U : Type) (e : E) (f : T → Result U E),
      result.bind (.Err e : Result T E) f = .Err e) ∧
    (∀ (T E U : Type) (e : E) (f : T → Result U E),
      (result.bindTraced (.Err e : Result T E) f).2 = []) :=
  ⟨fun _ _ _ _ _ => rfl, fun _ _ _ _ _ => rfl, fun _ _ _ _ _ => rfl⟩

/-- C5: the Option operations satisfy the monad laws with zero: left
identity, right identity, and bind on zero is zero. -/
theorem claim_C5 :
    (∀ (T U : Type) (x : T) (f : T → Option U),
      option.bind (option.ret x) f = f x) ∧
    (∀ (T : Type) (m : Option T), option.bind m option.ret = m) ∧
    (∀ (T U : Type) (f : T → Option U),
      option.bind (option.mzero : Option T) f = option.mzero) :=
  ⟨fun _ _ _ _ => rfl, fun _ m => by cases m <;> rfl, fun _ _ _ => rfl⟩

/-- C6: both triple-nested guarded enumerations of Pythagorean triples
below 11 (the test's and the example's) collect to exactly
`[(3, 4, 5), (6, 8, 10)]`. -/
theorem claim_C6 :
    pythTest = [(3, 4, 5), (6, 8, 10)] ∧
    pythExample = [(3, 4, 5), (6, 8, 10)] := by
  decide

/-- C7: the desugared when_trick program — bind over `0..5` with the
guard reading the just-bound value, filtering `!= 3` — yields exactly
`[0, 1, 2, 4]`; and in general a when clause keeps the remainder when its
test is true and short-circuits to the empty sequence when false. -/
theorem claim_C7 :
    mdoDesugar iterOps whenTrickClauses = [0, 1, 2, 4] ∧
    (∀ (α : Type) (b : Bool) (rest : Clauses List α),
      mdoDesugar iterOps (.whenC b rest) =
        if b then mdoDesugar iterOps rest else []) := by
  refine ⟨by decide, fun α b rest => ?_⟩
  cases b <;>
    simp [mdoDesugar, iterOps, iter.bind, iter.ret, iter.mzero,
      iter.optionIntoIter]

/-- C8: `iter::ret x` is the one-element sequence containing exactly `x`
and `iter::mzero` is the empty sequence. -/
theorem claim_C8 :
    (∀ (T : Type) (x : T), iter.ret x = [x]) ∧
    (∀ (T : Type), (iter.mzero : List T) = []) :=
  ⟨fun _ _ => rfl, fun _ => rfl⟩

/-- C9: instrumented `result::bind` applies `f` exactly once on a
success (at the unwrapped value) and never on an error, and the
instrumentation computes the same result as `result::bind`. -/
theorem claim_C9 :
    (∀ (T E U : Type) (m : Result T E) (f : T → Result U E),
      (result.bindTraced m f).1 = result.bind m f) ∧
    (∀ (T E U : Type) (v : T) (f : T → Result U E),
      (result.bindTraced (.Ok v : Result T E) f).2 = [v]) ∧
    (∀ (T E U : Type) (e : E) (f : T → Result U E),
      (result.bindTraced (.Err e : Result T E) f).2 = []) := by
  refine ⟨fun T E U m f => ?_, fun _ _ _ _ _ => rfl, fun _ _ _ _ _ => rfl⟩
  cases m <;> rfl

/-- C10: the sequence operations satisfy the left monad-with-zero laws:
bind on the empty sequence is empty, and bind on a one-element sequence
yields exactly the elements of `f x` in order. -/
theorem claim_C10 :
    (∀ (A B : Type) (f : A → List B),
      iter.bind (iter.mzero : List A) f = iter.mzero) ∧
    (∀ (A B : Type) (x : A) (f : A → List B),
      iter.bind (iter.ret x) f = f x) := by
  refine ⟨fun _ _ _ => rfl, fun A B x f => ?_⟩
  simp [iter.bind, iter.ret, iter.mzero, iter.optionIntoIter]

end Mdo
